import Mathlib

/-!
Verification development for the rule-driven alerting and recurring-notification
engine of the Truefam contribution app (`AdvancedNotificationService`).

The service's methods are embedded as pure Lean functions:

* JS `Date` values are modelled by `JSDate`, a normalized civil date (year CE,
  0-based month, 1-based day of month) plus a minute-of-day.  All code paths in
  the source compare dates only via their timestamps and every constructed date
  has seconds and milliseconds zeroed by `setHours(h, m, 0, 0)`, so minute
  granularity is exact for the comparisons performed.  Timezone offsets and DST
  are not modelled (the spec treats the timezone label as metadata).
* The external contribution data source is passed in as an explicit list of
  contribution records; monetary amounts are modelled in exact cents.
* Channel dispatch (WhatsApp, push, webhook) is modelled by an oracle
  `net : NetCall → Bool` deciding whether a given send succeeds; a `false`
  result corresponds to the awaited call throwing.
* `AsyncStorage` persistence is the identity on the in-memory state (the source
  serializes the same collections it keeps in memory).
-/

/-- Gregorian leap-year test, as JS `Date` implements it. -/
def isLeap (y : Nat) : Bool :=
  decide ((y % 4 = 0 ∧ y % 100 ≠ 0) ∨ y % 400 = 0)

/-- Length of 0-based month `m` (0 = January) given the leap flag. -/
def daysInMonthN (leap : Bool) (m : Nat) : Nat :=
  if m = 1 then (if leap then 29 else 28)
  else if m = 3 ∨ m = 5 ∨ m = 8 ∨ m = 10 then 30 else 31

/-- Length of 0-based month `m` in year `y`. -/
def daysInMonth (y m : Nat) : Nat := daysInMonthN (isLeap y) m

/-- Days in year `y` that precede 0-based month `m`. -/
def monthOffset (leap : Bool) : Nat → Nat
  | 0 => 0
  | m + 1 => monthOffset leap m + daysInMonthN leap m

/-- Number of leap years in `[0, y)` (year 0 counts as leap). -/
def leapCount (y : Nat) : Nat :=
  (y + 3) / 4 + (y + 399) / 400 - (y + 99) / 100

/-- A JS `Date` at minute granularity: normalized civil date plus minute of day.
`month` is 0-based as in JS; `day` is 1-based. -/
structure JSDate where
  year : Nat
  month : Nat
  day : Nat
  minute : Nat
  deriving DecidableEq, Repr

/-- The representation invariant every date built by the model satisfies. -/
def Normalized (x : JSDate) : Prop :=
  x.month < 12 ∧ 1 ≤ x.day ∧ x.day ≤ daysInMonth x.year x.month ∧ x.minute < 1440

instance (x : JSDate) : Decidable (Normalized x) := by
  unfold Normalized; infer_instance

/-- Day count of a civil triple from 0000-01-01 (also defined on
not-yet-normalized day values, which is what `Date` setters produce). -/
def dayNumOf (y m d : Nat) : Nat :=
  365 * y + leapCount y + monthOffset (isLeap y) m + (d - 1)

/-- Day number of a date since 0000-01-01. -/
def dayNum (x : JSDate) : Nat := dayNumOf x.year x.month x.day

/-- Timestamp in minutes since 0000-01-01 00:00; JS `Date` comparisons in the
source are comparisons of this value. -/
def toAbs (x : JSDate) : Nat := dayNum x * 1440 + x.minute

/-- JS `getDay()`: 0 = Sunday … 6 = Saturday. -/
def dow (x : JSDate) : Nat := (dayNum x + 6) % 7

/-- Normalize an overflowed day-of-month by rolling into following months, as
JS `Date` does for out-of-range day values.  The fuel argument only drives
structural recursion; `d` itself is always sufficient fuel. -/
def normDGo : Nat → Nat → Nat → Nat → Nat × Nat × Nat
  | 0, y, m, d => (y, m, d)
  | _ + 1, y, m, 0 => (y, m, 0)
  | fuel + 1, y, m, d =>
    if daysInMonth y m < d then
      if m = 11 then normDGo fuel (y + 1) 0 (d - daysInMonth y m)
      else normDGo fuel y (m + 1) (d - daysInMonth y m)
    else (y, m, d)

/-- Normalize the civil triple `(y, m, d)` with `m < 12` and a possibly
overflowed day `d`. -/
def normD (y m d : Nat) : Nat × Nat × Nat := normDGo d y m d

/-- JS `setHours(h, mi, 0, 0)` for in-range `h`, `mi`. -/
def setTime (x : JSDate) (h mi : Nat) : JSDate :=
  { x with minute := h * 60 + mi }

/-- JS `setDate(getDate() + k)`. -/
def addDays (x : JSDate) (k : Nat) : JSDate :=
  let r := normD x.year x.month (x.day + k)
  ⟨r.1, r.2.1, r.2.2, x.minute⟩

/-- JS `setDate(d)` for `1 ≤ d`. -/
def setDay (x : JSDate) (d : Nat) : JSDate :=
  let r := normD x.year x.month d
  ⟨r.1, r.2.1, r.2.2, x.minute⟩

/-- JS `setMonth(mo, d)`: month overflow rolls the year, then the given day is
normalized against the target month. -/
def setMonthDay (x : JSDate) (mo d : Nat) : JSDate :=
  let r := normD (x.year + mo / 12) (mo % 12) d
  ⟨r.1, r.2.1, r.2.2, x.minute⟩

example : dow ⟨1970, 0, 1, 0⟩ = 4 := by decide
example : dow ⟨2024, 0, 1, 0⟩ = 1 := by decide
example : dow ⟨2024, 1, 29, 0⟩ = 4 := by decide
example : daysInMonth 2023 1 = 28 ∧ daysInMonth 2024 1 = 29 := by decide
example : addDays ⟨2024, 0, 31, 420⟩ 1 = ⟨2024, 1, 1, 420⟩ := by decide
example : addDays ⟨2023, 11, 31, 0⟩ 1 = ⟨2024, 0, 1, 0⟩ := by decide
example : setMonthDay ⟨2024, 0, 31, 420⟩ 1 31 = ⟨2024, 2, 2, 420⟩ := by decide

/-!
### Data model (`AlertRule`, `AlertCondition`, `AlertAction`, `ScheduleConfig`,
`NotificationTemplate`, `ScheduledNotification`, `Contribution`)

String-literal unions of the source (`type`, `priority`, operators) are kept as
strings.  `ScheduleConfig.time` holds the pair parsed from the source's
`"HH:MM"` string by `time.split(':').map(Number)`.
-/

/-- Condition payload (`value: any` in the source). -/
inductive CondValue where
  | num : Int → CondValue
  | str : String → CondValue
  | range : Int → Int → CondValue
  deriving DecidableEq, Repr

structure AlertCondition where
  field : String
  operator : String
  value : CondValue
  timeframe : Option Nat
  deriving DecidableEq, Repr

structure AlertAction where
  type : String
  template : String
  recipients : Option (List String)
  webhookUrl : Option String
  deriving DecidableEq, Repr

structure ScheduleConfig where
  type : String
  time : Nat × Nat
  days : Option (List Nat)
  timezone : String
  enabled : Bool
  deriving DecidableEq, Repr

structure AlertRule where
  id : String
  name : String
  enabled : Bool
  type : String
  conditions : List AlertCondition
  actions : List AlertAction
  schedule : Option ScheduleConfig
  cooldown : Option Nat
  priority : String
  createdAt : String
  lastTriggered : Option String
  deriving DecidableEq, Repr

structure NotificationTemplate where
  id : String
  name : String
  type : String
  subject : String
  body : String
  /-- Named `variables` in the source; renamed because `variables` is a
  reserved token in Lean. -/
  variableList : List String
  createdAt : String
  deriving DecidableEq, Repr

structure ScheduledNotification where
  id : String
  type : String
  schedule : ScheduleConfig
  template : String
  recipients : List String
  enabled : Bool
  lastSent : Option String
  nextScheduled : JSDate
  deriving DecidableEq, Repr

/-- A contribution record from the external `ContributionService`.
`amount` is in exact cents (the source keeps a JS float). -/
structure Contribution where
  amount : Nat
  memberId : String
  memberName : String
  date : String
  deriving DecidableEq, Repr

/-!
### Scheduling logic: `calculateNextSchedule`
-/

/-- `calculateNextSchedule(schedule)` of the source, with the implicit
`new Date()` made an explicit `now` argument.  The branch structure mirrors the
source's `switch`, including the weekly/monthly overlapping conditionals and
the fall-through (returning `nextDate` unchanged) when no branch fires. -/
def calculateNextSchedule (schedule : ScheduleConfig) (now : JSDate) : JSDate :=
  let h := schedule.time.1
  let mi := schedule.time.2
  let nextDate := setTime now h mi
  if schedule.type = "daily" then
    if toAbs nextDate ≤ toAbs now then addDays nextDate 1 else nextDate
  else if schedule.type = "weekly" then
    match schedule.days with
    | some (d0 :: rest) =>
      let ds := d0 :: rest
      let currentDay := dow now
      let nextDay := (ds.find? (fun day => decide (currentDay < day))).getD d0
      if nextDay ≤ currentDay ∧ toAbs nextDate ≤ toAbs now then
        addDays nextDate (7 - currentDay + d0)
      else if currentDay < nextDay then
        addDays nextDate (nextDay - currentDay)
      else if toAbs nextDate ≤ toAbs now then
        addDays nextDate 7
      else nextDate
    | _ => nextDate
  else if schedule.type = "monthly" then
    match schedule.days with
    | some (d0 :: rest) =>
      let ds := d0 :: rest
      let currentDate := now.day
      let nextDay := (ds.find? (fun day => decide (currentDate < day))).getD d0
      if nextDay ≤ currentDate ∧ toAbs nextDate ≤ toAbs now then
        setMonthDay nextDate (nextDate.month + 1) nextDay
      else if currentDate < nextDay then
        setDay nextDate nextDay
      else if toAbs nextDate ≤ toAbs now then
        setMonthDay nextDate (nextDate.month + 1) nextDate.day
      else nextDate
    | _ => nextDate
  else nextDate

/-!
### Template rendering: `processTemplate`

The source substitutes with `message.replace(new RegExp(variable, 'g'), value)`
where each `variable` is a literal `\x7bname\x7d` pattern (no regex
metacharacter other than the braces, which JS treats literally here), i.e. a
global replace-all of a literal pattern, applied sequentially for the six
known variables.  The replacement string is interpreted by ECMA-262
`GetSubstitution`: with zero capture groups, `$$` expands to `$`, `$&` to the
matched text, a `$` followed by a backquote to the part of the subject before
the match, `$'` to the part after it, and every other `$`-sequence (in
particular `$` followed by a digit, since there are no captures) passes
through literally.  Strings are manipulated as `List Char`.
-/

/-- The `\x7b` character, written via its code to keep brace handling uniform. -/
def obrace : Char := Char.ofNat 123

/-- The `\x7d` character. -/
def cbrace : Char := Char.ofNat 125

/-- The dollar character `$`, which opens a replacement-pattern escape. -/
def dollarChar : Char := Char.ofNat 36

/-- The ampersand character, as in the matched-text escape. -/
def ampChar : Char := Char.ofNat 38

/-- The backquote character, as in the before-match escape. -/
def btickChar : Char := Char.ofNat 96

/-- The single-quote character, as in the after-match escape. -/
def squoteChar : Char := Char.ofNat 39

/-- True when the string contains neither brace character. -/
def braceFreeL (s : List Char) : Bool :=
  s.all (fun c => !(c == obrace) && !(c == cbrace))

/-- The placeholder pattern `\x7bname\x7d` for a variable name. -/
def phPat (n : List Char) : List Char := obrace :: (n ++ [cbrace])

/-- ECMA-262 `GetSubstitution` for a replacement string, specialized to a
regular expression with zero capture groups: `before`/`matched`/`after` are
the parts of the original subject around the current match.  Every
`$`-sequence other than the four recognized escapes is literal (with no
captures, `$` followed by a digit never names a capture). -/
def expandRepl (before matched after : List Char) : List Char → List Char
  | [] => []
  | [c] => [c]
  | c :: d :: rest =>
    if c = dollarChar then
      if d = dollarChar then dollarChar :: expandRepl before matched after rest
      else if d = ampChar then matched ++ expandRepl before matched after rest
      else if d = btickChar then before ++ expandRepl before matched after rest
      else if d = squoteChar then after ++ expandRepl before matched after rest
      else dollarChar :: expandRepl before matched after (d :: rest)
    else c :: expandRepl before matched after (d :: rest)

/-- True when `expandRepl` inserts the string verbatim in every context:
no occurrence of one of the four recognized `$`-escapes.  A `$` followed by a
digit (as in a rendered amount) is inert. -/
def replInert : List Char → Bool
  | [] => true
  | [_] => true
  | c :: d :: rest =>
    if c = dollarChar then
      if d = dollarChar ∨ d = ampChar ∨ d = btickChar ∨ d = squoteChar then false
      else replInert (d :: rest)
    else replInert (d :: rest)

/-- Left-to-right, non-overlapping global replacement of a literal pattern,
the semantics of `String.replace(new RegExp(lit, 'g'), value)`.  `pre`
accumulates the original subject before the scan point, so each match can
expand the replacement's before/after escapes against the original string.
The fuel only drives structural recursion; `s.length` is always sufficient. -/
def replaceAllGo (pat repl : List Char) : Nat → List Char → List Char → List Char
  | 0, _, s => s
  | _ + 1, _, [] => []
  | fuel + 1, pre, c :: rest =>
    if !pat.isEmpty && pat.isPrefixOf (c :: rest) then
      expandRepl pre ((c :: rest).take pat.length) ((c :: rest).drop pat.length) repl
        ++ replaceAllGo pat repl fuel (pre ++ (c :: rest).take pat.length)
            ((c :: rest).drop pat.length)
    else
      c :: replaceAllGo pat repl fuel (pre ++ [c]) rest

/-- Global replace-all of a literal pattern with `GetSubstitution` expansion
of the replacement string. -/
def replaceAllL (pat repl s : List Char) : List Char :=
  replaceAllGo pat repl s.length [] s

example : replaceAllL "A".data "$&$&".data "xAy".data = "xAAy".data := by decide
example : replaceAllL "A".data "$$".data "xAy".data = "x$y".data := by decide
example : replaceAllL "A".data [dollarChar, btickChar] "xAy".data = "xxy".data := by
  decide
example : replaceAllL "A".data [dollarChar, squoteChar] "xAy".data = "xyy".data := by
  decide
example : replaceAllL "A".data "$1".data "xAy".data = "x$1y".data := by decide

/-- `contributions.reduce((sum, c) => sum + c.amount, 0)`. -/
def totalCents (cs : List Contribution) : Nat :=
  cs.foldl (fun s c => s + c.amount) 0

/-- `new Set(contributions.map(c => c.memberId)).size`. -/
def uniqueContributors (cs : List Contribution) : Nat :=
  ((cs.map (fun c => c.memberId)).eraseDups).length

/-- Two-digit rendering of a sub-unit cent value. -/
def pad2 (k : Nat) : String :=
  if k < 10 then "0" ++ toString k else toString k

/-- `x.toFixed(2)` on an exact cent amount. -/
def toFixed2 (cents : Nat) : String :=
  toString (cents / 100) ++ "." ++ pad2 (cents % 100)

/-- JS default number printing for an amount with at most two decimals
(trailing zeros omitted), used by the `latest_contribution` interpolation. -/
def jsAmountStr (cents : Nat) : String :=
  if cents % 100 = 0 then toString (cents / 100)
  else if cents % 10 = 0 then toString (cents / 100) ++ "." ++ toString (cents % 100 / 10)
  else toString (cents / 100) ++ "." ++ pad2 (cents % 100)

/-- The `latest_contribution` snapshot value. -/
def latestContribution (cs : List Contribution) : String :=
  match cs with
  | [] => "None"
  | c :: _ => "$" ++ jsAmountStr c.amount ++ " from " ++ c.memberName

/-- The `variables` object of `processTemplate`, in insertion order.
`nowStr` stands for `new Date().toLocaleString()`. -/
def templateVars (cs : List Contribution) (nowStr : String) (rule : AlertRule) :
    List (List Char × List Char) :=
  [ (phPat "rule_name".data, rule.name.data),
    (phPat "timestamp".data, nowStr.data),
    (phPat "total_amount".data, (toFixed2 (totalCents cs)).data),
    (phPat "contribution_count".data, (toString cs.length).data),
    (phPat "unique_contributors".data, (toString (uniqueContributors cs)).data),
    (phPat "latest_contribution".data, (latestContribution cs).data) ]

/-- `processTemplate(templateId, rule)` of the source; the 24h contribution
window and the locale timestamp are explicit arguments. -/
def processTemplate (templates : List NotificationTemplate) (cs : List Contribution)
    (nowStr : String) (templateId : String) (rule : AlertRule) : String :=
  match templates.find? (fun t => t.id == templateId) with
  | none => "Alert triggered: " ++ rule.name
  | some template =>
    String.mk ((templateVars cs nowStr rule).foldl
      (fun msg pv => replaceAllL pv.1 pv.2 msg) template.body.data)

example : processTemplate
    [⟨"t1", "T", "alert", "S", "\x7brule_name\x7d", [], "c"⟩] [] "now" "t1"
    ⟨"r1", "$&", true, "amount_threshold", [], [], none, none, "high", "c", none⟩
  = "\x7brule_name\x7d" := by decide

/-!
### Service state and operations
-/

/-- The mutable fields of `AdvancedNotificationServiceClass`.  `activeAlerts`
(the in-memory cooldown map, rule id → last-triggered `Date.now()` ms) is an
association list. -/
structure ServiceState where
  alertRules : List AlertRule
  templates : List NotificationTemplate
  scheduledNotifications : List ScheduledNotification
  activeAlerts : List (String × Nat)
  deriving DecidableEq, Repr

/-- Replace the first element satisfying `p` by its image under `f`:
the effect of `findIndex` followed by an indexed assignment. -/
def updateFirst (p : α → Bool) (f : α → α) : List α → List α
  | [] => []
  | x :: xs => if p x then f x :: xs else x :: updateFirst p f xs

/-- JS `Map.set`: insert or overwrite the binding for `k`. -/
def setEntry (l : List (String × Nat)) (k : String) (v : Nat) : List (String × Nat) :=
  (k, v) :: l.filter (fun p => p.1 != k)

/-- `shouldTriggerRule(rule)`: the cooldown check (with JS truthiness on the
map entry and on `rule.cooldown`) followed by the condition loop.
`evalC` is the oracle for `evaluateCondition`, which reads the external
`ContributionService`; `nowMs` is `Date.now()`.  JS computes
`Date.now() - lastTriggered` as a possibly negative number that still compares
`< cooldownMs`; truncated `Nat` subtraction gives the same branch outcome
because the cooldown is positive in that branch. -/
def shouldTriggerRule (evalC : AlertCondition → Bool) (activeAlerts : List (String × Nat))
    (nowMs : Nat) (rule : AlertRule) : Bool :=
  let blocked :=
    match List.lookup rule.id activeAlerts, rule.cooldown with
    | some t, some c =>
      if t ≠ 0 ∧ c ≠ 0 then decide (nowMs - t < c * 60000) else false
    | _, _ => false
  if blocked then false
  else rule.conditions.all evalC

/-- An outbound channel call made by `executeAction`. -/
inductive NetCall where
  | whatsapp : (message category : String) → NetCall
  | push : (title body : String) → NetCall
  | webhook : (url rule message priority timestamp : String) → NetCall
  deriving DecidableEq, Repr

/-- The channel call `executeAction(action, rule)` performs, if any: the
message is rendered first, then the `switch` on `action.type` dispatches.
`email` has no case in the source's `switch`, so nothing is dispatched. -/
def actionCall (templates : List NotificationTemplate) (cs : List Contribution)
    (nowStr : String) (action : AlertAction) (rule : AlertRule) : Option NetCall :=
  let message := processTemplate templates cs nowStr action.template rule
  if action.type = "whatsapp" then some (.whatsapp message "alert")
  else if action.type = "push" then some (.push ("Alert: " ++ rule.name) message)
  else if action.type = "webhook" then
    match action.webhookUrl with
    | some url => some (.webhook url rule.name message rule.priority nowStr)
    | none => none
  else none

/-- `executeAction(action, rule)` with the dispatch outcome decided by the
`net` oracle (`false` = the awaited send throws). -/
def executeAction (net : NetCall → Bool) (templates : List NotificationTemplate)
    (cs : List Contribution) (nowStr : String) (action : AlertAction)
    (rule : AlertRule) : Except String Unit :=
  match actionCall templates cs nowStr action rule with
  | none => .ok ()
  | some c => if net c then .ok () else .error "dispatch failed"

/-- The action loop of `triggerRule`: each iteration runs in its own
`try/catch`, so the recursion continues whatever `net` answers.  The result
records every attempted channel call with its outcome. -/
def runActions (net : NetCall → Bool) (templates : List NotificationTemplate)
    (cs : List Contribution) (nowStr : String) (rule : AlertRule) :
    List AlertAction → List (NetCall × Bool)
  | [] => []
  | a :: rest =>
    (match actionCall templates cs nowStr a rule with
     | none => []
     | some c => [(c, net c)]) ++ runActions net templates cs nowStr rule rest

/-- `triggerRule(rule)`: record the trigger in `activeAlerts`, stamp
`lastTriggered` on the stored rule, persist, then execute the actions.
Returns the new state and the dispatch trace. -/
def triggerRule (net : NetCall → Bool) (st : ServiceState) (rule : AlertRule)
    (nowMs : Nat) (nowStr : String) (cs : List Contribution) :
    ServiceState × List (NetCall × Bool) :=
  let st' := { st with
    activeAlerts := setEntry st.activeAlerts rule.id nowMs,
    alertRules := updateFirst (fun r => r.id == rule.id)
      (fun r => { r with lastTriggered := some nowStr }) st.alertRules }
  (st', runActions net st.templates cs nowStr rule rule.actions)

/-- `deactivateRule(ruleId)`: discard the cooldown entry. -/
def deactivateRule (st : ServiceState) (id : String) : ServiceState :=
  { st with activeAlerts := st.activeAlerts.filter (fun p => p.1 != id) }

/-- `updateAlertRule(id, updates)`; `f` is the merge `{...old, ...updates}`.
Throws when the id is absent; afterwards an enabled→disabled transition
discards the cooldown entry (`activateRule` does not touch state). -/
def updateAlertRule (st : ServiceState) (id : String) (f : AlertRule → AlertRule) :
    Except String ServiceState :=
  match st.alertRules.find? (fun r => r.id == id) with
  | none => .error "Alert rule not found"
  | some old =>
    let st' := { st with alertRules := updateFirst (fun r => r.id == id) f st.alertRules }
    if old.enabled && !(f old).enabled then .ok (deactivateRule st' id)
    else .ok st'

/-- `deleteAlertRule(id)`: deactivate (dropping the cooldown entry), then
filter the rule out.  The source performs no existence check. -/
def deleteAlertRule (st : ServiceState) (id : String) : Except String ServiceState :=
  let st' := deactivateRule st id
  .ok { st' with alertRules := st'.alertRules.filter (fun r => r.id != id) }

/-- `updateTemplate(id, updates)`: throws when the id is absent. -/
def updateTemplate (st : ServiceState) (id : String)
    (f : NotificationTemplate → NotificationTemplate) : Except String ServiceState :=
  match st.templates.find? (fun t => t.id == id) with
  | none => .error "Template not found"
  | some _ => .ok { st with templates := updateFirst (fun t => t.id == id) f st.templates }

/-- `deleteTemplate(id)`: filter only, no existence check. -/
def deleteTemplate (st : ServiceState) (id : String) : Except String ServiceState :=
  .ok { st with templates := st.templates.filter (fun t => t.id != id) }

/-- `updateScheduledNotification(id, updates)`; `schedChanged` records whether
`updates.schedule` was present, which triggers a `nextScheduled` recompute.
Registration with the OS scheduler is external. -/
def updateScheduledNotification (st : ServiceState) (id : String)
    (f : ScheduledNotification → ScheduledNotification) (schedChanged : Bool)
    (now : JSDate) : Except String ServiceState :=
  match st.scheduledNotifications.find? (fun n => n.id == id) with
  | none => .error "Scheduled notification not found"
  | some _ =>
    let ns := updateFirst (fun n => n.id == id) f st.scheduledNotifications
    let ns := if schedChanged then
        updateFirst (fun n => n.id == id)
          (fun n => { n with nextScheduled := calculateNextSchedule n.schedule now }) ns
      else ns
    .ok { st with scheduledNotifications := ns }

/-- `deleteScheduledNotification(id)`: cancel with the external scheduler
(no state), then filter; no existence check. -/
def deleteScheduledNotification (st : ServiceState) (id : String) :
    Except String ServiceState :=
  .ok { st with scheduledNotifications :=
    st.scheduledNotifications.filter (fun n => n.id != id) }

/-!
### Calendar lemmas
-/

theorem daysInMonthN_pos (l : Bool) (m : Nat) : 1 ≤ daysInMonthN l m := by
  simp only [daysInMonthN]; split_ifs <;> omega

theorem daysInMonth_11 (y : Nat) : daysInMonth y 11 = 31 := by
  simp [daysInMonth, daysInMonthN]

theorem leapCount_succ (y : Nat) :
    leapCount (y + 1) = leapCount y + (if isLeap y then 1 else 0) := by
  simp only [leapCount, isLeap, decide_eq_true_eq]
  split_ifs <;> omega

theorem monthOffset_11 (l : Bool) : monthOffset l 11 = if l then 335 else 334 := by
  cases l <;> decide

theorem dayNumOf_month_roll (y m d : Nat) (hm : m < 11) (hd : daysInMonth y m < d) :
    dayNumOf y (m + 1) (d - daysInMonth y m) = dayNumOf y m d := by
  have h1 : 1 ≤ daysInMonthN (isLeap y) m := daysInMonthN_pos _ _
  have hoff : monthOffset (isLeap y) (m + 1)
      = monthOffset (isLeap y) m + daysInMonthN (isLeap y) m := rfl
  simp only [dayNumOf, daysInMonth, hoff] at hd ⊢
  omega

theorem dayNumOf_year_roll (y d : Nat) (hd : 31 < d) :
    dayNumOf (y + 1) 0 (d - 31) = dayNumOf y 11 d := by
  have hlc := leapCount_succ y
  have h0 : monthOffset (isLeap (y + 1)) 0 = 0 := rfl
  simp only [dayNumOf, h0, monthOffset_11, hlc]
  split_ifs <;> omega

theorem normDGo_spec (fuel : Nat) : ∀ (y m d : Nat), m < 12 → 1 ≤ d → d ≤ fuel →
    dayNumOf (normDGo fuel y m d).1 (normDGo fuel y m d).2.1 (normDGo fuel y m d).2.2
        = dayNumOf y m d ∧
      (normDGo fuel y m d).2.1 < 12 ∧ 1 ≤ (normDGo fuel y m d).2.2 ∧
      (normDGo fuel y m d).2.2
        ≤ daysInMonth (normDGo fuel y m d).1 (normDGo fuel y m d).2.1 := by
  induction fuel with
  | zero => intro y m d hm hd hdf; omega
  | succ f ih =>
    intro y m d hm hd hdf
    obtain ⟨e, rfl⟩ : ∃ e, d = e + 1 := ⟨d - 1, by omega⟩
    show _ ∧ _
    by_cases hlt : daysInMonth y m < e + 1
    · by_cases hm11 : m = 11
      · subst hm11
        have hstep : normDGo (f + 1) y 11 (e + 1)
            = normDGo f (y + 1) 0 (e + 1 - daysInMonth y 11) := by
          simp [normDGo, hlt]
        rw [hstep]
        have h31 : daysInMonth y 11 = 31 := daysInMonth_11 y
        have hrec := ih (y + 1) 0 (e + 1 - daysInMonth y 11) (by omega) (by omega) (by omega)
        refine ⟨?_, hrec.2.1, hrec.2.2.1, hrec.2.2.2⟩
        rw [hrec.1, h31]
        exact dayNumOf_year_roll y (e + 1) (by omega)
      · have hstep : normDGo (f + 1) y m (e + 1)
            = normDGo f y (m + 1) (e + 1 - daysInMonth y m) := by
          simp [normDGo, hlt, hm11]
        rw [hstep]
        have hpos : 1 ≤ daysInMonth y m := daysInMonthN_pos _ _
        have hrec := ih y (m + 1) (e + 1 - daysInMonth y m)
          (by omega) (by omega) (by omega)
        refine ⟨?_, hrec.2.1, hrec.2.2.1, hrec.2.2.2⟩
        rw [hrec.1]
        exact dayNumOf_month_roll y m (e + 1) (by omega) hlt
    · have hstep : normDGo (f + 1) y m (e + 1) = (y, m, e + 1) := by
        simp [normDGo, hlt]
      rw [hstep]
      refine ⟨rfl, hm, ?_, ?_⟩
      · show 1 ≤ e + 1; omega
      · show e + 1 ≤ daysInMonth y m; omega

theorem dayNumOf_add (y m d k : Nat) (hd : 1 ≤ d) :
    dayNumOf y m (d + k) = dayNumOf y m d + k := by
  simp only [dayNumOf]; omega

theorem addDays_spec (x : JSDate) (k : Nat) (hx : Normalized x) :
    toAbs (addDays x k) = toAbs x + 1440 * k ∧ Normalized (addDays x k) := by
  obtain ⟨hm, hd, hdle, hmin⟩ := hx
  have hs := normDGo_spec (x.day + k) x.year x.month (x.day + k) hm (by omega) (by omega)
  constructor
  · show dayNum _ * 1440 + _ = _
    simp only [addDays, normD, dayNum]
    rw [hs.1, dayNumOf_add x.year x.month x.day k hd]
    simp only [toAbs, dayNum]
    ring
  · exact ⟨hs.2.1, hs.2.2.1, hs.2.2.2, hmin⟩

theorem toAbs_setTime (x : JSDate) (h mi : Nat) :
    toAbs (setTime x h mi) = dayNum x * 1440 + (h * 60 + mi) := rfl

theorem setDay_inRange (x : JSDate) (d : Nat) (h1 : 1 ≤ d)
    (h2 : d ≤ daysInMonth x.year x.month) :
    setDay x d = ⟨x.year, x.month, d, x.minute⟩ := by
  obtain ⟨e, rfl⟩ : ∃ e, d = e + 1 := ⟨d - 1, by omega⟩
  have : ¬ daysInMonth x.year x.month < e + 1 := by omega
  simp [setDay, normD, normDGo, this]

/-!
### C1 and C3: cooldown suppression; empty condition lists
-/

/-- C1: if a rule with cooldown `C` minutes has its trigger recorded at a
(positive) `Date.now()` timestamp `t` in the in-memory cooldown map, then
`shouldTriggerRule` returns `false` at every instant `t'` with
`t < t' < t + C * 60000` ms, whatever the conditions evaluate to — so no two
triggers of the same rule occur closer together than `C` minutes. -/
theorem C1_cooldown_suppresses (evalC : AlertCondition → Bool)
    (alerts : List (String × Nat)) (rule : AlertRule) (t t' C : Nat)
    (hl : List.lookup rule.id alerts = some t) (hc : rule.cooldown = some C)
    (ht : 0 < t) (h1 : t < t') (h2 : t' < t + C * 60000) :
    shouldTriggerRule evalC alerts t' rule = false := by
  unfold shouldTriggerRule
  rw [hl, hc]
  have ht0 : t ≠ 0 := by omega
  have hC0 : C ≠ 0 := by
    intro h; subst h; omega
  have hlt : t' - t < C * 60000 := by omega
  simp [ht0, hC0, hlt]

/-- C1 witness: a rule with a 5-minute cooldown last triggered at `t = 1000`
is suppressed at `t' = 200000 < 1000 + 300000`. -/
theorem C1_cooldown_suppresses_witness :
    shouldTriggerRule (fun _ => true) [("rule_1", 1000)] 200000
      ⟨"rule_1", "Big", true, "amount_threshold", [], [], none, some 5, "high",
        "2024", none⟩ = false :=
  C1_cooldown_suppresses (fun _ => true) [("rule_1", 1000)]
    ⟨"rule_1", "Big", true, "amount_threshold", [], [], none, some 5, "high",
      "2024", none⟩
    1000 200000 5 rfl rfl (by decide) (by decide) (by decide)

/-- C3: an enabled rule whose conditions list is empty passes
`shouldTriggerRule` whenever no prior trigger is recorded, or no cooldown is
set, or the cooldown has elapsed — the empty condition loop vacuously
succeeds. -/
theorem C3_empty_conditions (evalC : AlertCondition → Bool)
    (alerts : List (String × Nat)) (nowMs : Nat) (rule : AlertRule)
    (hc : rule.conditions = [])
    (h : List.lookup rule.id alerts = none ∨ rule.cooldown = none ∨
      ∃ t C, List.lookup rule.id alerts = some t ∧ rule.cooldown = some C ∧
        t + C * 60000 ≤ nowMs) :
    shouldTriggerRule evalC alerts nowMs rule = true := by
  unfold shouldTriggerRule
  rcases h with h | h | ⟨t, C, h1, h2, h3⟩
  · rw [h]; cases rule.cooldown <;> simp [hc]
  · rw [h]; cases List.lookup rule.id alerts <;> simp [hc]
  · rw [h1, h2]
    have : ¬ (nowMs - t < C * 60000) := by omega
    by_cases ht : t ≠ 0 ∧ C ≠ 0
    · simp [ht, this, hc]
    · simp [ht, hc]

/-- C3 witness: an empty-condition rule with an elapsed 5-minute cooldown
(triggered at 1000, now 301000) passes. -/
theorem C3_empty_conditions_witness :
    shouldTriggerRule (fun _ => false) [("rule_2", 1000)] 301000
      ⟨"rule_2", "Empty", true, "time_based", [], [], none, some 5, "low",
        "2024", none⟩ = true :=
  C3_empty_conditions (fun _ => false) [("rule_2", 1000)] 301000
    ⟨"rule_2", "Empty", true, "time_based", [], [], none, some 5, "low",
      "2024", none⟩
    rfl (Or.inr (Or.inr ⟨1000, 5, rfl, rfl, by decide⟩))

/-!
### C4, C2, C5: `calculateNextSchedule`
-/

/-- C4: for a daily schedule at `HH:MM`, `calculateNextSchedule` returns the
next occurrence of `HH:MM` strictly after `now`: it is in the future, lies at
minute-of-day `HH:MM`, and is the least such timestamp — today's slot when
`now` is before it, tomorrow's otherwise. -/
theorem C4_daily (now : JSDate) (h mi : Nat) (dys : Option (List Nat))
    (tz : String) (en : Bool)
    (hN : Normalized now) (hh : h < 24) (hmi : mi < 60) :
    toAbs now < toAbs (calculateNextSchedule ⟨"daily", (h, mi), dys, tz, en⟩ now) ∧
    toAbs (calculateNextSchedule ⟨"daily", (h, mi), dys, tz, en⟩ now) % 1440
        = h * 60 + mi ∧
    ∀ t, toAbs now < t → t % 1440 = h * 60 + mi →
      toAbs (calculateNextSchedule ⟨"daily", (h, mi), dys, tz, en⟩ now) ≤ t := by
  have hred : calculateNextSchedule ⟨"daily", (h, mi), dys, tz, en⟩ now
      = (if toAbs (setTime now h mi) ≤ toAbs now then addDays (setTime now h mi) 1
         else setTime now h mi) := rfl
  have hbase : toAbs (setTime now h mi) = dayNum now * 1440 + (h * 60 + mi) := rfl
  have hnow : toAbs now = dayNum now * 1440 + now.minute := rfl
  have hminN : now.minute < 1440 := hN.2.2.2
  have hbaseN : Normalized (setTime now h mi) :=
    ⟨hN.1, hN.2.1, hN.2.2.1, by simp only [setTime]; omega⟩
  rw [hred]
  split_ifs with hc
  · have hadd := (addDays_spec (setTime now h mi) 1 hbaseN).1
    refine ⟨by omega, by omega, ?_⟩
    intro t ht1 ht2
    omega
  · refine ⟨by omega, by omega, ?_⟩
    intro t ht1 ht2
    omega

/-- C4 witness: with time 09:00, `now` = 2024-01-02 08:00 yields a strictly
future result, which is today 09:00; `now` = 10:00 yields tomorrow 09:00. -/
theorem C4_daily_witness :
    toAbs (⟨2024, 0, 2, 480⟩ : JSDate) <
      toAbs (calculateNextSchedule ⟨"daily", (9, 0), none, "UTC", true⟩
        ⟨2024, 0, 2, 480⟩) ∧
    calculateNextSchedule ⟨"daily", (9, 0), none, "UTC", true⟩ ⟨2024, 0, 2, 480⟩
        = ⟨2024, 0, 2, 540⟩ ∧
    calculateNextSchedule ⟨"daily", (9, 0), none, "UTC", true⟩ ⟨2024, 0, 2, 600⟩
        = ⟨2024, 0, 3, 540⟩ :=
  ⟨(C4_daily ⟨2024, 0, 2, 480⟩ 9 0 none "UTC" true (by decide) (by decide)
      (by decide)).1,
    by decide, by decide⟩

/-- C2 amended: the two cited weekly scenarios hold.  With allowed days
`[1, 3, 5]` and time 07:00, `now` = Tuesday 2024-01-02 06:00 yields Wednesday
2024-01-03 07:00, and `now` = Friday 2024-01-05 08:00 yields Monday
2024-01-08 07:00 (next week). -/
theorem C2_weekly_examples :
    calculateNextSchedule ⟨"weekly", (7, 0), some [1, 3, 5], "UTC", true⟩
        ⟨2024, 0, 2, 360⟩ = ⟨2024, 0, 3, 420⟩ ∧
    calculateNextSchedule ⟨"weekly", (7, 0), some [1, 3, 5], "UTC", true⟩
        ⟨2024, 0, 5, 480⟩ = ⟨2024, 0, 8, 420⟩ := by
  decide

/-- C2 counterexample: with allowed days `[1, 3]` and time 07:00, at `now` =
Monday 2024-01-01 06:00 the code returns Wednesday 2024-01-03 07:00, yet
Monday 2024-01-01 07:00 is an earlier timestamp at 07:00 that is strictly
after `now` and whose day-of-week (1) is in the configured set — so the result
is not the earliest qualifying timestamp, refuting the claim as stated. -/
theorem C2_weekly_counterexample :
    calculateNextSchedule ⟨"weekly", (7, 0), some [1, 3], "UTC", true⟩
        ⟨2024, 0, 1, 360⟩ = ⟨2024, 0, 3, 420⟩ ∧
    dow ⟨2024, 0, 1, 420⟩ ∈ [1, 3] ∧
    (⟨2024, 0, 1, 420⟩ : JSDate).minute = 7 * 60 + 0 ∧
    toAbs ⟨2024, 0, 1, 360⟩ < toAbs ⟨2024, 0, 1, 420⟩ ∧
    toAbs ⟨2024, 0, 1, 420⟩ < toAbs ⟨2024, 0, 3, 420⟩ := by
  decide

/-- C5 counterexample: with monthly days `[31]` and time 07:00, at `now` =
2024-01-31 08:00 the code rolls to the next month with day 31, which JS
normalizes by overflow rather than clamping: the result is 2024-03-02 07:00,
whose day-of-month is not in the configured set and which skips February
entirely — refuting the "clamped to valid month lengths" claim. -/
theorem C5_monthly_counterexample :
    calculateNextSchedule ⟨"monthly", (7, 0), some [31], "UTC", true⟩
        ⟨2024, 0, 31, 480⟩ = ⟨2024, 2, 2, 420⟩ ∧
    (⟨2024, 2, 2, 420⟩ : JSDate).day ∉ [31] ∧
    (⟨2024, 2, 2, 420⟩ : JSDate).month ≠ 1 := by
  decide

/-- C5 amended: for a monthly schedule, when the first configured day-of-month
greater than today's day exists and does not exceed the current month's
length, the result is that day of the current month at `HH:MM`, lies in the
configured set, and is strictly in the future.  (When the selected day exceeds
the target month's length, the date overflows into the following month instead
of being clamped — see the counterexample.) -/
theorem C5_monthly_inRange (now : JSDate) (h mi : Nat) (ds : List Nat)
    (tz : String) (en : Bool) (nd : Nat)
    (hN : Normalized now) (hh : h < 24) (hmi : mi < 60)
    (hfind : ds.find? (fun day => decide (now.day < day)) = some nd)
    (hfit : nd ≤ daysInMonth now.year now.month) :
    calculateNextSchedule ⟨"monthly", (h, mi), some ds, tz, en⟩ now
        = ⟨now.year, now.month, nd, h * 60 + mi⟩ ∧
    nd ∈ ds ∧
    toAbs now < toAbs (⟨now.year, now.month, nd, h * 60 + mi⟩ : JSDate) := by
  match ds, hfind with
  | d0 :: rest, hfind =>
    have hgt : now.day < nd := by
      have := List.find?_some hfind
      simpa using this
    have hday1 : 1 ≤ now.day := hN.2.1
    have hred : calculateNextSchedule ⟨"monthly", (h, mi), some (d0 :: rest), tz, en⟩ now
        = (let nextDate := setTime now h mi
           let nextDay := ((d0 :: rest).find? (fun day => decide (now.day < day))).getD d0
           if nextDay ≤ now.day ∧ toAbs nextDate ≤ toAbs now then
             setMonthDay nextDate (nextDate.month + 1) nextDay
           else if now.day < nextDay then setDay nextDate nextDay
           else if toAbs nextDate ≤ toAbs now then
             setMonthDay nextDate (nextDate.month + 1) nextDate.day
           else nextDate) := rfl
    rw [hred]
    simp only [hfind, Option.getD_some]
    rw [if_neg (by omega), if_pos hgt]
    have hset : setDay (setTime now h mi) nd
        = ⟨now.year, now.month, nd, h * 60 + mi⟩ :=
      setDay_inRange (setTime now h mi) nd (by omega) hfit
    refine ⟨hset, List.mem_of_find?_eq_some hfind, ?_⟩
    have hnow : toAbs now = dayNum now * 1440 + now.minute := rfl
    have htgt : toAbs (⟨now.year, now.month, nd, h * 60 + mi⟩ : JSDate)
        = dayNumOf now.year now.month nd * 1440 + (h * 60 + mi) := rfl
    have hstep : dayNumOf now.year now.month nd
        = dayNumOf now.year now.month now.day + (nd - now.day) := by
      have hnd : nd = now.day + (nd - now.day) := by omega
      rw [hnd, dayNumOf_add now.year now.month now.day (nd - now.day) hday1]
      omega
    have hdn : dayNum now = dayNumOf now.year now.month now.day := rfl
    have hminN : now.minute < 1440 := hN.2.2.2
    omega

/-- C5 amended-claim witness: monthly days `[10, 25]` at 07:00 from
2024-01-05 08:00 yield 2024-01-10 07:00. -/
theorem C5_monthly_inRange_witness :
    calculateNextSchedule ⟨"monthly", (7, 0), some [10, 25], "UTC", true⟩
        ⟨2024, 0, 5, 480⟩ = ⟨2024, 0, 10, 420⟩ ∧
    (10 : Nat) ∈ [10, 25] ∧
    toAbs (⟨2024, 0, 5, 480⟩ : JSDate) < toAbs (⟨2024, 0, 10, 420⟩ : JSDate) :=
  C5_monthly_inRange ⟨2024, 0, 5, 480⟩ 7 0 [10, 25] "UTC" true 10
    (by decide) (by decide) (by decide) (by decide) (by decide)

/-!
### Store and cooldown-map helper lemmas
-/

theorem lookup_filter_ne (l : List (String × Nat)) (id : String) :
    List.lookup id (l.filter (fun p => p.1 != id)) = none := by
  induction l with
  | nil => rfl
  | cons x xs ih =>
    obtain ⟨k, v⟩ := x
    by_cases hk : k = id
    · simp [List.filter_cons, hk, ih]
    · simp only [List.filter_cons]
      have : ((k, v).1 != id) = true := by simpa using hk
      rw [if_pos this]
      have : (id == k) = false := by
        simp [Ne.symm hk]
      simp [List.lookup, this, ih]

theorem find?_updateFirst (p : α → Bool) (f : α → α) (l : List α)
    (hp : ∀ x, p x = true → p (f x) = true) :
    (updateFirst p f l).find? p = (l.find? p).map f := by
  induction l with
  | nil => rfl
  | cons x xs ih =>
    by_cases hx : p x = true
    · simp [updateFirst, hx, List.find?_cons_of_pos, hp x hx]
    · have hx' : p x = false := by simpa using hx
      simp [updateFirst, hx', List.find?_cons_of_neg, ih]

/-!
### C6: behaviour of update/delete on absent ids
-/

/-- C6 counterexample: `deleteTemplate` on an id absent from the store does
not reject — it returns success with the state unchanged (the source performs
no existence check in any of the delete operations), refuting the claim that
every update *and delete* operation raises an error for an absent id. -/
theorem C6_delete_does_not_reject :
    deleteTemplate ⟨[], [], [], []⟩ "missing" = .ok ⟨[], [], [], []⟩ := rfl

/-- C6 amended: on an id absent from the corresponding store, the three update
operations reject with a not-found error (leaving state untouched), while the
three delete operations complete successfully and leave the corresponding
stored collection unchanged. -/
theorem C6_notfound_amended (st : ServiceState) (id : String)
    (f : AlertRule → AlertRule) (g : NotificationTemplate → NotificationTemplate)
    (k : ScheduledNotification → ScheduledNotification) (b : Bool) (now : JSDate)
    (hr : ∀ r ∈ st.alertRules, r.id ≠ id)
    (ht : ∀ t ∈ st.templates, t.id ≠ id)
    (hs : ∀ n ∈ st.scheduledNotifications, n.id ≠ id) :
    updateAlertRule st id f = .error "Alert rule not found" ∧
    updateTemplate st id g = .error "Template not found" ∧
    updateScheduledNotification st id k b now
        = .error "Scheduled notification not found" ∧
    (∃ st1, deleteAlertRule st id = .ok st1 ∧ st1.alertRules = st.alertRules) ∧
    (∃ st2, deleteTemplate st id = .ok st2 ∧ st2.templates = st.templates) ∧
    (∃ st3, deleteScheduledNotification st id = .ok st3 ∧
      st3.scheduledNotifications = st.scheduledNotifications) := by
  have hfr : st.alertRules.find? (fun r => r.id == id) = none :=
    List.find?_eq_none.mpr (fun x hx => by simpa using hr x hx)
  have hft : st.templates.find? (fun t => t.id == id) = none :=
    List.find?_eq_none.mpr (fun x hx => by simpa using ht x hx)
  have hfs : st.scheduledNotifications.find? (fun n => n.id == id) = none :=
    List.find?_eq_none.mpr (fun x hx => by simpa using hs x hx)
  refine ⟨?_, ?_, ?_, ?_, ?_, ?_⟩
  · simp [updateAlertRule, hfr]
  · simp [updateTemplate, hft]
  · simp [updateScheduledNotification, hfs]
  · refine ⟨_, rfl, ?_⟩
    show (deactivateRule st id).alertRules.filter (fun r => r.id != id)
        = st.alertRules
    exact List.filter_eq_self.mpr (fun x hx => by simpa using hr x hx)
  · refine ⟨_, rfl, ?_⟩
    exact List.filter_eq_self.mpr (fun x hx => by simpa using ht x hx)
  · refine ⟨_, rfl, ?_⟩
    exact List.filter_eq_self.mpr (fun x hx => by simpa using hs x hx)

/-- C6 amended-claim witness at a concrete one-entry state and absent id. -/
theorem C6_notfound_amended_witness :
    updateAlertRule
        ⟨[⟨"r1", "N", true, "t", [], [], none, none, "low", "c", none⟩], [], [], []⟩
        "zz" id = .error "Alert rule not found" ∧
    (∃ st2, deleteTemplate
        ⟨[⟨"r1", "N", true, "t", [], [], none, none, "low", "c", none⟩], [], [], []⟩
        "zz" = .ok st2 ∧ st2.templates = ([] : List NotificationTemplate)) :=
  have h := C6_notfound_amended
    ⟨[⟨"r1", "N", true, "t", [], [], none, none, "low", "c", none⟩], [], [], []⟩
    "zz" id id id false ⟨2024, 0, 1, 0⟩
    (by decide) (by decide) (by decide)
  ⟨h.1, h.2.2.2.2.1⟩

/-!
### C9: deleting or disabling a rule clears its cooldown entry
-/

/-- C9: after `deleteAlertRule id` the cooldown map holds no entry for `id`
and no rule with that id remains (so no further triggers of it can occur);
likewise, disabling an enabled rule through `updateAlertRule` removes its
cooldown entry. -/
theorem C9_delete_clears_cooldown (st : ServiceState) (id : String)
    (f : AlertRule → AlertRule) :
    (∀ st', deleteAlertRule st id = .ok st' →
      List.lookup id st'.activeAlerts = none ∧ ∀ r ∈ st'.alertRules, r.id ≠ id) ∧
    (∀ old st'', st.alertRules.find? (fun r => r.id == id) = some old →
      old.enabled = true → (f old).enabled = false →
      updateAlertRule st id f = .ok st'' →
      List.lookup id st''.activeAlerts = none) := by
  constructor
  · intro st' h
    have hst : st' = { deactivateRule st id with
        alertRules := (deactivateRule st id).alertRules.filter
          (fun r => r.id != id) } := by
      simpa [deleteAlertRule] using h.symm
    subst hst
    refine ⟨lookup_filter_ne _ _, ?_⟩
    intro r hrmem
    have := List.of_mem_filter hrmem
    simpa using this
  · intro old st'' hfind hen hdis hup
    simp [updateAlertRule, hfind, hen, hdis] at hup
    subst hup
    exact lookup_filter_ne _ _

/-- C9 witness: a concrete state with rule `"r9"` holding a live cooldown
entry; deletion empties both, and disabling through an update clears the
cooldown map too. -/
theorem C9_delete_clears_cooldown_witness :
    (List.lookup "r9" (⟨[], [], [], []⟩ : ServiceState).activeAlerts = none ∧
      ∀ r ∈ (⟨[], [], [], []⟩ : ServiceState).alertRules, r.id ≠ "r9") ∧
    List.lookup "r9"
      (⟨[⟨"r9", "N", false, "t", [], [], none, some 1, "low", "c", none⟩],
          [], [], []⟩ : ServiceState).activeAlerts = none :=
  have h := C9_delete_clears_cooldown
    ⟨[⟨"r9", "N", true, "t", [], [], none, some 1, "low", "c", none⟩],
      [], [], [("r9", 777)]⟩
    "r9" (fun r => { r with enabled := false })
  ⟨h.1 ⟨[], [], [], []⟩ rfl,
    h.2 ⟨"r9", "N", true, "t", [], [], none, some 1, "low", "c", none⟩
      ⟨[⟨"r9", "N", false, "t", [], [], none, some 1, "low", "c", none⟩],
        [], [], []⟩ rfl rfl rfl rfl⟩

/-!
### C10: `triggerRule` records the trigger before executing any action
-/

/-- C10: `triggerRule` stores the `Date.now()` timestamp in the cooldown map
and stamps `lastTriggered` on the stored rule before the action loop runs: the
resulting state carries the new cooldown entry and updated rule, and is
independent of the dispatch outcomes (`net` vs `net'`) — so even a trigger in
which every dispatch fails leaves the rule in cooldown. -/
theorem C10_trigger_records_first (net net' : NetCall → Bool) (st : ServiceState)
    (rule : AlertRule) (nowMs : Nat) (nowStr : String) (cs : List Contribution) :
    List.lookup rule.id (triggerRule net st rule nowMs nowStr cs).1.activeAlerts
        = some nowMs ∧
    (triggerRule net st rule nowMs nowStr cs).1.alertRules.find?
        (fun r => r.id == rule.id)
      = (st.alertRules.find? (fun r => r.id == rule.id)).map
          (fun r => { r with lastTriggered := some nowStr }) ∧
    (triggerRule net st rule nowMs nowStr cs).1
        = (triggerRule net' st rule nowMs nowStr cs).1 := by
  refine ⟨?_, ?_, rfl⟩
  · show List.lookup rule.id (setEntry st.activeAlerts rule.id nowMs) = some nowMs
    simp [setEntry, List.lookup]
  · show (updateFirst (fun r => r.id == rule.id)
        (fun r => { r with lastTriggered := some nowStr }) st.alertRules).find?
          (fun r => r.id == rule.id)
      = (st.alertRules.find? (fun r => r.id == rule.id)).map
          (fun r => { r with lastTriggered := some nowStr })
    exact find?_updateFirst _ _ _ (fun x hx => hx)

/-!
### C7: per-action failure isolation in the action loop
-/

/-- C7: whatever the dispatch outcomes of the actions before it (the loop
catches each `executeAction` failure), an action `a` occurring anywhere in a
fired rule's action list has its channel call attempted with its own outcome
recorded in the dispatch trace of `triggerRule`. -/
theorem C7_action_isolation (net : NetCall → Bool) (st : ServiceState)
    (cs : List Contribution) (nowMs : Nat) (nowStr : String) (rule : AlertRule)
    (l1 l2 : List AlertAction) (a : AlertAction) (c : NetCall)
    (hacts : rule.actions = l1 ++ a :: l2)
    (hcall : actionCall st.templates cs nowStr a rule = some c) :
    (c, net c) ∈ (triggerRule net st rule nowMs nowStr cs).2 := by
  show (c, net c) ∈ runActions net st.templates cs nowStr rule rule.actions
  rw [hacts]
  clear hacts
  induction l1 with
  | nil => simp [runActions, hcall]
  | cons b l1' ih =>
    show (c, net c) ∈ (match actionCall st.templates cs nowStr b rule with
      | none => []
      | some c' => [(c', net c')]) ++ runActions net st.templates cs nowStr rule
        (l1' ++ a :: l2)
    exact List.mem_append_right _ ih

/-- C7 witness: a rule whose webhook action fails to dispatch still has its
subsequent push action attempted (and succeeding); both outcomes appear in the
trace. -/
theorem C7_action_isolation_witness :
    (NetCall.push "Alert: R" "Alert triggered: R",
        (fun c => match c with
          | NetCall.webhook _ _ _ _ _ => false
          | _ => true) (NetCall.push "Alert: R" "Alert triggered: R"))
      ∈ (triggerRule
          (fun c => match c with
            | NetCall.webhook _ _ _ _ _ => false
            | _ => true)
          ⟨[], [], [], []⟩
          ⟨"r7", "R", true, "amount_threshold", [],
            [⟨"webhook", "tm", none, some "http:u"⟩, ⟨"push", "tm", none, none⟩],
            none, none, "high", "c", none⟩
          5 "now" []).2 ∧
    (NetCall.webhook "http:u" "R" "Alert triggered: R" "high" "now",
        (fun c => match c with
          | NetCall.webhook _ _ _ _ _ => false
          | _ => true) (NetCall.webhook "http:u" "R" "Alert triggered: R" "high" "now"))
      ∈ (triggerRule
          (fun c => match c with
            | NetCall.webhook _ _ _ _ _ => false
            | _ => true)
          ⟨[], [], [], []⟩
          ⟨"r7", "R", true, "amount_threshold", [],
            [⟨"webhook", "tm", none, some "http:u"⟩, ⟨"push", "tm", none, none⟩],
            none, none, "high", "c", none⟩
          5 "now" []).2 :=
  ⟨C7_action_isolation _ ⟨[], [], [], []⟩ [] 5 "now"
      ⟨"r7", "R", true, "amount_threshold", [],
        [⟨"webhook", "tm", none, some "http:u"⟩, ⟨"push", "tm", none, none⟩],
        none, none, "high", "c", none⟩
      [⟨"webhook", "tm", none, some "http:u"⟩] [] ⟨"push", "tm", none, none⟩
      (NetCall.push "Alert: R" "Alert triggered: R") rfl rfl,
    C7_action_isolation _ ⟨[], [], [], []⟩ [] 5 "now"
      ⟨"r7", "R", true, "amount_threshold", [],
        [⟨"webhook", "tm", none, some "http:u"⟩, ⟨"push", "tm", none, none⟩],
        none, none, "high", "c", none⟩
      [] [⟨"push", "tm", none, none⟩] ⟨"webhook", "tm", none, some "http:u"⟩
      (NetCall.webhook "http:u" "R" "Alert triggered: R" "high" "now") rfl rfl⟩

/-!
### C8: template rendering

The body of a template is viewed as a sequence of tokens — literal runs and
`\x7bname\x7d` placeholders — and the sequential global replacement performed
by `processTemplate` is characterized on such token sequences.
-/

/-- A token of a template body: a literal run or a placeholder. -/
inductive Tok where
  | lit : List Char → Tok
  | ph : List Char → Tok
  deriving DecidableEq, Repr

/-- The characters a token denotes. -/
def tokStr : Tok → List Char
  | .lit s => s
  | .ph n => phPat n

/-- The body text a token list denotes. -/
def tokensStr (ts : List Tok) : List Char := (ts.map tokStr).flatten

/-- Wellformedness: literal runs contain no opening brace (a placeholder
pattern can only match starting at one), placeholder names contain no brace. -/
def tokOK : Tok → Bool
  | .lit s => s.all (fun c => !(c == obrace))
  | .ph n => braceFreeL n

/-- Sequentially replace a whole segment when it equals one of the variable
patterns: the per-token effect of the substitution chain. -/
def knownSubst (vars : List (List Char × List Char)) (g : List Char) : List Char :=
  vars.foldl (fun g pv => if g = pv.1 then pv.2 else g) g

/-- Rendering of one token by the variable list: a known placeholder becomes
its value, an unknown one stays verbatim, a literal run is unchanged. -/
def renderTok (vars : List (List Char × List Char)) (tk : Tok) : List Char :=
  knownSubst vars (tokStr tk)

/-- Wellformedness of an intermediate segment: brace-opening-free text, or
exactly one placeholder with a brace-free name. -/
def SegWF (g : List Char) : Prop :=
  (∀ c ∈ g, c ≠ obrace) ∨ ∃ n, braceFreeL n = true ∧ g = phPat n

theorem expandRepl_inert_bounded (b m a : List Char) :
    ∀ (n : Nat) (r : List Char), r.length ≤ n → replInert r = true →
      expandRepl b m a r = r := by
  intro n
  induction n with
  | zero =>
    intro r hr _
    match r with
    | [] => rfl
    | c :: rest => simp at hr
  | succ k ih =>
    intro r hr hin
    match r with
    | [] => rfl
    | [c] => rfl
    | c :: d :: rest =>
      have hr' : (d :: rest).length ≤ k := by
        simp only [List.length_cons] at hr ⊢
        omega
      rw [expandRepl]
      rw [replInert] at hin
      by_cases hc : c = dollarChar
      · rw [if_pos hc] at hin ⊢
        by_cases hd : d = dollarChar ∨ d = ampChar ∨ d = btickChar ∨ d = squoteChar
        · rw [if_pos hd] at hin
          exact absurd hin (by simp)
        · rw [if_neg hd] at hin
          push_neg at hd
          rw [if_neg hd.1, if_neg hd.2.1, if_neg hd.2.2.1, if_neg hd.2.2.2]
          rw [ih (d :: rest) hr' hin, hc]
      · rw [if_neg hc] at hin ⊢
        rw [ih (d :: rest) hr' hin]

theorem expandRepl_eq_self (b m a r : List Char) (hin : replInert r = true) :
    expandRepl b m a r = r :=
  expandRepl_inert_bounded b m a r.length r (Nat.le_refl _) hin

theorem replaceAllGo_pre (pat repl : List Char) (hin : replInert repl = true) :
    ∀ (f : Nat) (pre1 pre2 s : List Char),
      replaceAllGo pat repl f pre1 s = replaceAllGo pat repl f pre2 s := by
  intro f
  induction f with
  | zero => intro pre1 pre2 s; rfl
  | succ k ih =>
    intro pre1 pre2 s
    cases s with
    | nil => rfl
    | cons c rest =>
      rw [replaceAllGo]
      conv_rhs => rw [replaceAllGo]
      by_cases hc : (!pat.isEmpty && pat.isPrefixOf (c :: rest)) = true
      · rw [if_pos hc, if_pos hc]
        rw [expandRepl_eq_self pre1 _ _ repl hin,
          expandRepl_eq_self pre2 _ _ repl hin]
        exact congrArg (fun t => repl ++ t) (ih _ _ _)
      · rw [if_neg hc, if_neg hc]
        exact congrArg (fun t => c :: t) (ih _ _ _)

theorem replaceAllGo_fuel (pat repl : List Char) :
    ∀ (f : Nat) (pre s : List Char), s.length ≤ f →
      replaceAllGo pat repl f pre s = replaceAllGo pat repl s.length pre s := by
  intro f
  induction f using Nat.strong_induction_on with
  | _ f ih =>
    intro pre s hs
    match f, s with
    | 0, [] => rfl
    | 0, c :: rest => simp at hs
    | f + 1, [] => rfl
    | f + 1, c :: rest =>
      have hlen : rest.length + 1 ≤ f + 1 := hs
      show replaceAllGo pat repl (f + 1) pre (c :: rest)
          = replaceAllGo pat repl (rest.length + 1) pre (c :: rest)
      rw [replaceAllGo]
      conv_rhs => rw [replaceAllGo]
      by_cases hc : (!pat.isEmpty && pat.isPrefixOf (c :: rest)) = true
      · rw [if_pos hc, if_pos hc]
        congr 1
        have hpat1 : 1 ≤ pat.length := by
          rcases pat with _ | ⟨p, pt⟩
          · simp at hc
          · simp
        have hdl : ((c :: rest).drop pat.length).length = rest.length + 1 - pat.length := by
          simp [List.length_drop]
        rw [ih f (by omega) _ _ (by omega)]
        rw [ih rest.length (by omega) _ _ (by omega)]
      · rw [if_neg hc, if_neg hc]
        congr 1
        exact ih f (by omega) _ rest (by omega)

theorem replaceAllL_cons_neg (pat repl : List Char) (hin : replInert repl = true)
    (c : Char) (s : List Char)
    (h : (!pat.isEmpty && pat.isPrefixOf (c :: s)) = false) :
    replaceAllL pat repl (c :: s) = c :: replaceAllL pat repl s := by
  show replaceAllGo pat repl (s.length + 1) [] (c :: s)
      = c :: replaceAllGo pat repl s.length [] s
  rw [replaceAllGo, if_neg (by simp [h])]
  rw [replaceAllGo_pre pat repl hin s.length ([] ++ [c]) [] s]

theorem isPrefixOf_append_self : ∀ (l s : List Char), l.isPrefixOf (l ++ s) = true := by
  intro l
  induction l with
  | nil => intro s; simp
  | cons a as ih => intro s; simp [List.isPrefixOf, ih]

theorem replaceAllL_head_match (pat repl s : List Char) (hin : replInert repl = true)
    (hpat : pat ≠ []) :
    replaceAllL pat repl (pat ++ s) = repl ++ replaceAllL pat repl s := by
  rcases pat with _ | ⟨p, pt⟩
  · exact absurd rfl hpat
  show replaceAllGo (p :: pt) repl ((pt ++ s).length + 1) [] (p :: (pt ++ s)) = _
  have hcond : (!(p :: pt).isEmpty && (p :: pt).isPrefixOf (p :: (pt ++ s))) = true := by
    have h1 : (p :: pt).isPrefixOf ((p :: pt) ++ s) = true := isPrefixOf_append_self _ _
    simpa using h1
  rw [replaceAllGo, if_pos hcond]
  have hdrop : (p :: (pt ++ s)).drop (p :: pt).length = s := by
    have hx : (p :: (pt ++ s)) = (p :: pt) ++ s := rfl
    rw [hx, List.drop_left]
  rw [hdrop]
  rw [expandRepl_eq_self _ _ _ repl hin]
  congr 1
  rw [replaceAllGo_pre (p :: pt) repl hin (pt ++ s).length
    ([] ++ (p :: (pt ++ s)).take (p :: pt).length) [] s]
  exact replaceAllGo_fuel (p :: pt) repl (pt ++ s).length [] s (by simp)

theorem replaceAllL_obrace_free (pt repl : List Char) (hin : replInert repl = true) :
    ∀ (l s : List Char), (∀ c ∈ l, c ≠ obrace) →
      replaceAllL (obrace :: pt) repl (l ++ s)
        = l ++ replaceAllL (obrace :: pt) repl s := by
  intro l
  induction l with
  | nil => intro s _; rfl
  | cons c cl ih =>
    intro s hl
    have hc : (obrace == c) = false :=
      beq_eq_false_iff_ne.mpr (Ne.symm (hl c (by simp)))
    have hshape : (c :: cl) ++ s = c :: (cl ++ s) := rfl
    rw [hshape, replaceAllL_cons_neg _ _ hin _ _ (by simp [List.isPrefixOf, hc]),
      ih s (fun c' hc' => hl c' (by simp [hc']))]
    rw [List.cons_append]

theorem isPrefixOf_tail_false : ∀ (A n s : List Char),
    (∀ c ∈ A, c ≠ cbrace) → (∀ c ∈ n, c ≠ cbrace) → A ≠ n →
    ((A ++ [cbrace]).isPrefixOf ((n ++ [cbrace]) ++ s)) = false := by
  intro A
  induction A with
  | nil =>
    intro n s _ hn hne
    cases n with
    | nil => exact absurd rfl hne
    | cons m ms =>
      have hm : (cbrace == m) = false :=
        beq_eq_false_iff_ne.mpr (Ne.symm (hn m (by simp)))
      simp [List.isPrefixOf, hm]
  | cons a as ih =>
    intro n s hA hn hne
    cases n with
    | nil =>
      have ha : (a == cbrace) = false :=
        beq_eq_false_iff_ne.mpr (hA a (by simp))
      simp [List.isPrefixOf, ha]
    | cons m ms =>
      by_cases ham : a = m
      · subst ham
        have hne' : as ≠ ms := fun h => hne (by rw [h])
        have hrec := ih ms s (fun c hc => hA c (by simp [hc]))
          (fun c hc => hn c (by simp [hc])) hne'
        show ((a :: (as ++ [cbrace])).isPrefixOf (a :: ((ms ++ [cbrace]) ++ s))) = false
        rw [List.isPrefixOf_cons₂, beq_self_eq_true, Bool.true_and]
        exact hrec
      · have : (a == m) = false := beq_eq_false_iff_ne.mpr ham
        simp [List.isPrefixOf, this]

theorem braceFree_no_obrace (l : List Char) (h : braceFreeL l = true) :
    ∀ c ∈ l, c ≠ obrace := by
  intro c hc hceq
  have := List.all_eq_true.mp h c hc
  subst hceq
  simp at this

theorem braceFree_no_cbrace (l : List Char) (h : braceFreeL l = true) :
    ∀ c ∈ l, c ≠ cbrace := by
  intro c hc hceq
  have := List.all_eq_true.mp h c hc
  subst hceq
  simp at this

theorem replaceAll_segments (A v : List Char) (hA : braceFreeL A = true)
    (hv : replInert v = true) :
    ∀ segs : List (List Char), (∀ g ∈ segs, SegWF g) →
      replaceAllL (phPat A) v segs.flatten
        = (segs.map (fun g => if g = phPat A then v else g)).flatten := by
  intro segs
  induction segs with
  | nil => intro _; rfl
  | cons g gs ih =>
    intro hwf
    have hg := hwf g (by simp)
    have hrest := ih (fun g' h => hwf g' (by simp [h]))
    rw [List.flatten_cons, List.map_cons, List.flatten_cons]
    rcases hg with hbf | ⟨n, hn, rfl⟩
    · have hneq : g ≠ phPat A := by
        intro hEq
        have hmem : obrace ∈ g := by rw [hEq]; simp [phPat]
        exact hbf obrace hmem rfl
      rw [if_neg hneq]
      show replaceAllL (obrace :: (A ++ [cbrace])) v (g ++ gs.flatten) = _
      rw [replaceAllL_obrace_free (A ++ [cbrace]) v hv g gs.flatten hbf]
      have hR : replaceAllL (obrace :: (A ++ [cbrace])) v gs.flatten
          = (List.map (fun g => if g = phPat A then v else g) gs).flatten := hrest
      rw [hR]
    · by_cases hAn : n = A
      · subst hAn
        rw [if_pos rfl, replaceAllL_head_match (phPat n) v _ hv (by simp [phPat]),
          hrest]
      · have hneq : phPat n ≠ phPat A := by
          intro hEq
          apply hAn
          simpa [phPat] using hEq
        rw [if_neg hneq]
        have hpre := isPrefixOf_tail_false A n gs.flatten
          (braceFree_no_cbrace A hA) (braceFree_no_cbrace n hn)
          (fun h => hAn h.symm)
        show replaceAllL (obrace :: (A ++ [cbrace])) v (phPat n ++ gs.flatten) = _
        have hshape : phPat n ++ gs.flatten
            = obrace :: ((n ++ [cbrace]) ++ gs.flatten) := by
          simp [phPat]
        rw [hshape]
        have hcnd : (!(obrace :: (A ++ [cbrace])).isEmpty &&
            (obrace :: (A ++ [cbrace])).isPrefixOf
              (obrace :: ((n ++ [cbrace]) ++ gs.flatten))) = false := by
          have hp : ((obrace :: (A ++ [cbrace])).isPrefixOf
              (obrace :: ((n ++ [cbrace]) ++ gs.flatten))) = false := by
            rw [List.isPrefixOf_cons₂, beq_self_eq_true, Bool.true_and]
            exact hpre
          rw [List.isEmpty_cons, Bool.not_false, Bool.true_and]
          exact hp
        rw [replaceAllL_cons_neg _ _ hv _ _ hcnd]
        have hobf : ∀ c ∈ n ++ [cbrace], c ≠ obrace := by
          intro c hc
          rcases List.mem_append.mp hc with h1 | h1
          · exact braceFree_no_obrace n hn c h1
          · simp at h1
            subst h1
            decide
        rw [replaceAllL_obrace_free (A ++ [cbrace]) v hv (n ++ [cbrace]) gs.flatten hobf]
        have hR : replaceAllL (obrace :: (A ++ [cbrace])) v gs.flatten
            = (List.map (fun g => if g = phPat A then v else g) gs).flatten := hrest
        rw [hR]
        simp [phPat]

theorem foldl_replaceAll_segments :
    ∀ (vars : List (List Char × List Char)) (segs : List (List Char)),
      (∀ pv ∈ vars, (∃ A, braceFreeL A = true ∧ pv.1 = phPat A) ∧
        braceFreeL pv.2 = true ∧ replInert pv.2 = true) →
      (∀ g ∈ segs, SegWF g) →
      vars.foldl (fun msg pv => replaceAllL pv.1 pv.2 msg) segs.flatten
        = (segs.map (knownSubst vars)).flatten := by
  intro vars
  induction vars with
  | nil =>
    intro segs _ _
    show segs.flatten = (segs.map (knownSubst [])).flatten
    rw [show segs.map (knownSubst []) = segs.map id from
      List.map_congr_left (fun a _ => rfl), List.map_id]
  | cons pv rest ih =>
    intro segs hv hwf
    obtain ⟨⟨A, hA, hpv⟩, hval, hinert⟩ := hv pv (by simp)
    have hstep : replaceAllL pv.1 pv.2 segs.flatten
        = (segs.map (fun g => if g = phPat A then pv.2 else g)).flatten := by
      rw [hpv]
      exact replaceAll_segments A pv.2 hA hinert segs hwf
    rw [List.foldl_cons, hstep]
    rw [ih (segs.map (fun g => if g = phPat A then pv.2 else g))
      (fun pv' h => hv pv' (by simp [h]))
      (by
        intro g hg
        obtain ⟨g0, hg0, rfl⟩ := List.mem_map.mp hg
        by_cases he : g0 = phPat A
        · rw [if_pos he]
          exact Or.inl (braceFree_no_obrace pv.2 hval)
        · rw [if_neg he]
          exact hwf g0 hg0)]
    rw [List.map_map]
    apply congrArg
    apply List.map_congr_left
    intro g _
    show knownSubst rest (if g = phPat A then pv.2 else g) = knownSubst (pv :: rest) g
    simp [knownSubst, List.foldl_cons, hpv]

/-- C8 counterexample: substitution is sequential, so a snapshot value that
itself contains a later placeholder is substituted again.  With template body
`\x7brule_name\x7d`, rule name `\x7btotal_amount\x7d`, and a 125.50 total, the
output is `125.50` — not the rule-name snapshot value — refuting the claim
that every occurrence of a known placeholder is replaced exactly by its
snapshot value for every body and snapshot. -/
theorem C8_cascade_counterexample :
    processTemplate
        [⟨"t1", "T", "alert", "S", "\x7brule_name\x7d", [], "c"⟩]
        [⟨12550, "m1", "Bob", "d"⟩] "now" "t1"
        ⟨"r1", "\x7btotal_amount\x7d", true, "amount_threshold", [], [], none,
          none, "high", "c", none⟩
      = "125.50" ∧
    ("125.50" : String) ≠ "\x7btotal_amount\x7d" := by
  constructor
  · decide
  · decide

/-- C8 amended: on any template body that decomposes into literal runs
(containing no opening brace) and placeholders with brace-free names, and for
snapshot values that contain no brace characters and no JS replacement-pattern
escape (`$$`, `$&`, a `$` before a backquote, `$'` — a `$` before a digit, as
in a rendered amount, is inert), `processTemplate` replaces each known
placeholder by its snapshot value — `total_amount` rendered as a 2-decimal
string via `toFixed2` — and leaves every other placeholder verbatim
(`renderTok` keeps `\x7bname\x7d` for unknown names). -/
theorem C8_template_tokens (templates : List NotificationTemplate)
    (cs : List Contribution) (nowStr : String) (tid : String) (rule : AlertRule)
    (template : NotificationTemplate) (toks : List Tok)
    (hfind : templates.find? (fun t => t.id == tid) = some template)
    (hbody : template.body.data = tokensStr toks)
    (hok : ∀ tk ∈ toks, tokOK tk = true)
    (hvals : ∀ pv ∈ templateVars cs nowStr rule, braceFreeL pv.2 = true)
    (hinert : ∀ pv ∈ templateVars cs nowStr rule, replInert pv.2 = true) :
    (processTemplate templates cs nowStr tid rule).data
      = (toks.map (renderTok (templateVars cs nowStr rule))).flatten := by
  have hshape : ∀ pv ∈ templateVars cs nowStr rule,
      (∃ A, braceFreeL A = true ∧ pv.1 = phPat A) ∧ braceFreeL pv.2 = true ∧
        replInert pv.2 = true := by
    intro pv hpv
    refine ⟨?_, hvals pv hpv, hinert pv hpv⟩
    simp only [templateVars, List.mem_cons, List.not_mem_nil, or_false] at hpv
    rcases hpv with h | h | h | h | h | h
    · exact ⟨"rule_name".data, by decide, by rw [h]⟩
    · exact ⟨"timestamp".data, by decide, by rw [h]⟩
    · exact ⟨"total_amount".data, by decide, by rw [h]⟩
    · exact ⟨"contribution_count".data, by decide, by rw [h]⟩
    · exact ⟨"unique_contributors".data, by decide, by rw [h]⟩
    · exact ⟨"latest_contribution".data, by decide, by rw [h]⟩
  have hwf : ∀ g ∈ toks.map tokStr, SegWF g := by
    intro g hg
    obtain ⟨tk, htk, rfl⟩ := List.mem_map.mp hg
    have hko := hok tk htk
    cases tk with
    | lit s =>
      left
      intro c hc hceq
      have := List.all_eq_true.mp hko c hc
      subst hceq
      simp at this
    | ph n => exact Or.inr ⟨n, hko, rfl⟩
  unfold processTemplate
  simp only [hfind]
  have hmk : ∀ l : List Char, (String.mk l).data = l := fun _ => rfl
  rw [hmk, hbody]
  have := foldl_replaceAll_segments (templateVars cs nowStr rule)
    (toks.map tokStr) hshape hwf
  rw [List.map_map] at this
  exact this

/-- C8 amended-claim witness: the spec's example — body
`Total: $\x7btotal_amount\x7d` with a 125.50 total renders
`Total: $125.50`, with the token characterization applying. -/
theorem C8_template_tokens_witness :
    (processTemplate
        [⟨"t1", "T", "alert", "S", "Total: $\x7btotal_amount\x7d", [], "c"⟩]
        [⟨12550, "m1", "Bob", "d"⟩] "now" "t1"
        ⟨"r1", "High", true, "amount_threshold", [], [], none, none, "high",
          "c", none⟩).data
      = ([Tok.lit "Total: $".data, Tok.ph "total_amount".data].map
          (renderTok (templateVars [⟨12550, "m1", "Bob", "d"⟩] "now"
            ⟨"r1", "High", true, "amount_threshold", [], [], none, none, "high",
              "c", none⟩))).flatten ∧
    processTemplate
        [⟨"t1", "T", "alert", "S", "Total: $\x7btotal_amount\x7d", [], "c"⟩]
        [⟨12550, "m1", "Bob", "d"⟩] "now" "t1"
        ⟨"r1", "High", true, "amount_threshold", [], [], none, none, "high",
          "c", none⟩
      = "Total: $125.50" :=
  ⟨C8_template_tokens
      [⟨"t1", "T", "alert", "S", "Total: $\x7btotal_amount\x7d", [], "c"⟩]
      [⟨12550, "m1", "Bob", "d"⟩] "now" "t1"
      ⟨"r1", "High", true, "amount_threshold", [], [], none, none, "high",
        "c", none⟩
      ⟨"t1", "T", "alert", "S", "Total: $\x7btotal_amount\x7d", [], "c"⟩
      [Tok.lit "Total: $".data, Tok.ph "total_amount".data]
      rfl (by decide) (by decide) (by decide) (by decide),
    by decide⟩
